import Mathlib

/-!
Verification development for the twitch-kit repository: a shallow embedding of
the text chunker (`internal/utils/text.go`), the response formatters
(`internal/formatter/formatter.go`), the data fetcher's response handling
(`internal/fetcher`), configuration loading (`pkg/config/config.go`) and the
conversation controller (`internal/bot`), together with theorems settling the
specification's claims about them.

Strings are modelled as lists of characters (`List Char`); Go byte lengths
coincide with character counts on the ASCII data these claims concern.
-/

namespace TwitchKit

/-! ## Text chunker (internal/utils/text.go) -/

/-- Whitespace predicate of Go's `unicode.IsSpace`, used by `strings.TrimSpace`:
'\t', '\n', '\v', '\f', '\r', ' ', U+0085, U+00A0, and the Unicode space
separators U+1680, U+2000..U+200A, U+2028, U+2029, U+202F, U+205F, U+3000. -/
def goIsSpace (c : Char) : Bool :=
  c.toNat = 0x9 || c.toNat = 0xA || c.toNat = 0xB || c.toNat = 0xC ||
  c.toNat = 0xD || c.toNat = 0x20 || c.toNat = 0x85 || c.toNat = 0xA0 ||
  c.toNat = 0x1680 || (0x2000 ≤ c.toNat && c.toNat ≤ 0x200A) ||
  c.toNat = 0x2028 || c.toNat = 0x2029 || c.toNat = 0x202F ||
  c.toNat = 0x205F || c.toNat = 0x3000

/-- Left half of `strings.TrimSpace`: drop leading whitespace. -/
def trimL (s : List Char) : List Char := s.dropWhile goIsSpace

/-- Right half of `strings.TrimSpace`: drop trailing whitespace. -/
def trimR (s : List Char) : List Char := (s.reverse.dropWhile goIsSpace).reverse

/-- Models Go's `strings.TrimSpace`: drop leading and trailing whitespace. -/
def goTrim (s : List Char) : List Char := trimR (trimL s)

/-- Models Go's `strings.Split(s, "\n")`: the list of '\n'-separated parts
(one more part than there are newlines; the empty string yields `[[]]`). -/
def splitNl : List Char → List (List Char)
  | [] => [[]]
  | c :: t =>
    if c = '\n' then [] :: splitNl t
    else
      match splitNl t with
      | [] => [[c]]
      | p :: ps => (c :: p) :: ps

/-- Join a list of lines with single '\n' separators (inverse of `splitNl`
on newline-free parts). -/
def joinNl : List (List Char) → List Char
  | [] => []
  | l :: ls =>
    match ls with
    | [] => l
    | _ :: _ => l ++ '\n' :: joinNl ls

/-- The loop of `utils.SplitMessage`, transcribed from `internal/utils/text.go`:
`current` is the part being accumulated (`currentPart`), `ls` the remaining
lines.  Each line is trimmed; empty lines are skipped; when appending the line
(plus a separating newline) would push `current` past `limit` and `current` is
non-empty, `current` is flushed; the final non-blank `current` is flushed at
the end. -/
def splitLoop (limit : Int) : List (List Char) → List Char → List (List Char)
  | [], current => if goTrim current = [] then [] else [goTrim current]
  | l :: ls, current =>
    if goTrim l = [] then splitLoop limit ls current
    else if limit < (current.length : Int) + (goTrim l).length + 1 ∧ current ≠ [] then
      goTrim current :: splitLoop limit ls (goTrim l)
    else
      splitLoop limit ls (if current = [] then goTrim l else current ++ '\n' :: goTrim l)

/-- Models `utils.SplitMessage` on character lists: split the trimmed text into lines
and run the accumulation loop with an empty current part. -/
def splitMessageCore (text : List Char) (limit : Int) : List (List Char) :=
  splitLoop limit (splitNl (goTrim text)) []

/-- Models `utils.SplitMessage` at the `String` level, as in the source signature. -/
def SplitMessage (text : String) (limit : Int) : List String :=
  (splitMessageCore text.data limit).map fun cs => ⟨cs⟩

/-- Clean a list of raw lines the way the chunker treats them: trim each line
and drop the blank ones. -/
def cleanParts (ps : List (List Char)) : List (List Char) :=
  (ps.map goTrim).filter fun l => !l.isEmpty

/-- The lines of `s`, each trimmed, with blank lines removed. -/
def cleanL (s : List Char) : List (List Char) := cleanParts (splitNl s)

/-- String-level: the lines of `s`, each trimmed, with blank lines removed. -/
def normLines (s : String) : List String := (cleanL s.data).map fun cs => ⟨cs⟩

/-- String-level `joinNl`: join lines with single newlines. -/
def joinLines (xs : List String) : String := ⟨joinNl (xs.map String.data)⟩

/-! ### Lemmas about trimming -/

lemma goIsSpace_nl : goIsSpace '\n' = true := by decide

lemma goTrim_nil : goTrim [] = [] := rfl

lemma trimL_decomp (s : List Char) : s = s.takeWhile goIsSpace ++ trimL s :=
  (List.takeWhile_append_dropWhile goIsSpace s).symm

lemma trimR_decomp (s : List Char) :
    s = trimR s ++ (s.reverse.takeWhile goIsSpace).reverse := by
  conv_lhs => rw [← List.reverse_reverse s,
    ← List.takeWhile_append_dropWhile goIsSpace s.reverse]
  rw [List.reverse_append]
  rfl

lemma dropWhile_head_false {p : Char → Bool} {l t : List Char} {c : Char}
    (h : l.dropWhile p = c :: t) : p c = false := by
  have hne : l.dropWhile p ≠ [] := by simp [h]
  have := List.head_dropWhile_not p l hne
  rwa [show (l.dropWhile p).head hne = c by simp [h]] at this

lemma trimL_cons_space {c : Char} {s : List Char} (h : goIsSpace c = true) :
    trimL (c :: s) = trimL s := by
  simp [trimL, List.dropWhile_cons, h]

lemma goTrim_cons_space {c : Char} {s : List Char} (h : goIsSpace c = true) :
    goTrim (c :: s) = goTrim s := by
  simp [goTrim, trimL_cons_space h]

lemma trimL_idem (s : List Char) : trimL (trimL s) = trimL s := by
  rcases h : trimL s with _ | ⟨c, t⟩
  · rfl
  · have hc := dropWhile_head_false (p := goIsSpace) h
    simp [trimL, List.dropWhile_cons, hc]

lemma trimL_eq_self {s : List Char}
    (h : ∀ c, s.head? = some c → goIsSpace c = false) : trimL s = s := by
  cases s with
  | nil => rfl
  | cons c t => simp [trimL, List.dropWhile_cons, h c rfl]

lemma trimR_eq_self {s : List Char}
    (h : ∀ c, s.getLast? = some c → goIsSpace c = false) : trimR s = s := by
  have := trimL_eq_self (s := s.reverse) (by
    intro c hc
    exact h c (by rwa [List.head?_reverse] at hc))
  rw [trimR, show s.reverse.dropWhile goIsSpace = trimL s.reverse from rfl, this,
    List.reverse_reverse]

lemma trimL_length_le (s : List Char) : (trimL s).length ≤ s.length :=
  (List.dropWhile_sublist goIsSpace).length_le

lemma trimR_length_le (s : List Char) : (trimR s).length ≤ s.length := by
  have := trimL_length_le s.reverse
  simpa [trimR, trimL] using this

lemma goTrim_length_le (s : List Char) : (goTrim s).length ≤ s.length :=
  le_trans (trimR_length_le (trimL s)) (trimL_length_le s)

lemma goTrim_subset {s : List Char} : goTrim s ⊆ s := by
  intro x hx
  have h1 : x ∈ trimL s := by
    have : x ∈ (trimL s).reverse.dropWhile goIsSpace := by
      simpa [goTrim, trimR] using hx
    have := List.dropWhile_subset (l := (trimL s).reverse) goIsSpace this
    simpa using this
  exact List.dropWhile_subset goIsSpace h1

lemma goTrim_eq_self_trimL {s : List Char} (h : goTrim s = s) : trimL s = s := by
  have hs : List.Sublist (trimL s) s := List.dropWhile_sublist goIsSpace
  refine hs.eq_of_length (Nat.le_antisymm hs.length_le ?_)
  calc s.length = (goTrim s).length := by rw [h]
    _ ≤ (trimL s).length := trimR_length_le (trimL s)

lemma goTrim_eq_self_trimR {s : List Char} (h : goTrim s = s) : trimR s = s := by
  have := goTrim_eq_self_trimL h
  rwa [goTrim, this] at h

lemma trimL_self_head_false {s : List Char} {c : Char} (h : trimL s = s)
    (hc : s.head? = some c) : goIsSpace c = false := by
  cases s with
  | nil => simp at hc
  | cons a t =>
    have ha : a = c := by simpa using hc
    subst ha
    by_contra hsp
    have hsp' : goIsSpace a = true := by simpa using hsp
    have : trimL (a :: t) = trimL t := trimL_cons_space hsp'
    have hlen : (a :: t).length ≤ t.length := by
      calc (a :: t).length = (trimL (a :: t)).length := by rw [h]
        _ = (trimL t).length := by rw [this]
        _ ≤ t.length := trimL_length_le t
    simp at hlen

lemma trimR_self_getLast_false {s : List Char} {c : Char} (h : trimR s = s)
    (hc : s.getLast? = some c) : goIsSpace c = false := by
  have hrev : trimL s.reverse = s.reverse := by
    have : (trimL s.reverse).reverse = s := h
    calc trimL s.reverse = (trimL s.reverse).reverse.reverse := by
          rw [List.reverse_reverse]
      _ = s.reverse := by rw [this]
  exact trimL_self_head_false hrev (by rwa [List.head?_reverse])

lemma goTrim_head_false {s : List Char} {c : Char} (h : goTrim s = s)
    (hc : s.head? = some c) : goIsSpace c = false :=
  trimL_self_head_false (goTrim_eq_self_trimL h) hc

lemma goTrim_getLast_false {s : List Char} {c : Char} (h : goTrim s = s)
    (hc : s.getLast? = some c) : goIsSpace c = false :=
  trimR_self_getLast_false (goTrim_eq_self_trimR h) hc

lemma goTrim_eq_self_of_ends {s : List Char}
    (h1 : ∀ c, s.head? = some c → goIsSpace c = false)
    (h2 : ∀ c, s.getLast? = some c → goIsSpace c = false) : goTrim s = s := by
  rw [goTrim, trimL_eq_self h1, trimR_eq_self h2]

lemma goTrim_getLast?_false (s : List Char) :
    ∀ c, (goTrim s).getLast? = some c → goIsSpace c = false := by
  intro c hc
  rw [goTrim, trimR, List.getLast?_reverse] at hc
  rcases hd : (trimL s).reverse.dropWhile goIsSpace with _ | ⟨a, t⟩
  · rw [hd] at hc; simp at hc
  · rw [hd] at hc
    have : a = c := by simpa using hc
    subst this
    exact dropWhile_head_false hd

lemma goTrim_head?_false (s : List Char) :
    ∀ c, (goTrim s).head? = some c → goIsSpace c = false := by
  intro c hc
  rcases hne : goTrim s with _ | ⟨a, t⟩
  · rw [hne] at hc; simp at hc
  · have ha : a = c := by rw [hne] at hc; simpa using hc
    subst ha
    -- goTrim s = trimR (trimL s) is a prefix of trimL s, whose head is non-space
    have hdec := trimR_decomp (trimL s)
    have hhead : (trimL s).head? = some a := by
      rw [hdec, show trimR (trimL s) = goTrim s from rfl, hne]
      exact List.head?_append_of_ne_nil _ (by simp)
    rcases hl : trimL s with _ | ⟨b, u⟩
    · rw [hl] at hhead; simp at hhead
    · have hb : b = a := by rw [hl] at hhead; simpa using hhead
      subst hb
      exact dropWhile_head_false hl

lemma goTrim_idem (s : List Char) : goTrim (goTrim s) = goTrim s :=
  goTrim_eq_self_of_ends (goTrim_head?_false s) (goTrim_getLast?_false s)

lemma goTrim_eq_nil_of_all_space {s : List Char}
    (h : ∀ c ∈ s, goIsSpace c = true) : goTrim s = [] := by
  have : trimL s = [] := List.dropWhile_eq_nil_iff.mpr h
  rw [goTrim, this]
  rfl

/-! ### Lemmas about splitting and joining lines -/

lemma splitNl_ne_nil (s : List Char) : splitNl s ≠ [] := by
  cases s with
  | nil => simp [splitNl]
  | cons c t =>
    rw [splitNl]
    split
    · simp
    · rcases h : splitNl t with _ | ⟨p, ps⟩ <;> simp

lemma splitNl_cons (c : Char) (t : List Char) :
    splitNl (c :: t) = if c = '\n' then [] :: splitNl t
      else match splitNl t with
        | [] => [[c]]
        | p :: ps => (c :: p) :: ps := rfl

lemma nl_not_mem_splitNl {s : List Char} : ∀ l ∈ splitNl s, '\n' ∉ l := by
  induction s with
  | nil => intro l hl; simp [splitNl] at hl; simp [hl]
  | cons c t ih =>
    intro l hl
    rw [splitNl_cons] at hl
    by_cases hc : c = '\n'
    · rw [if_pos hc] at hl
      rcases List.mem_cons.mp hl with h1 | h1
      · simp [h1]
      · exact ih l h1
    · rw [if_neg hc] at hl
      rcases h : splitNl t with _ | ⟨p, ps⟩
      · exact absurd h (splitNl_ne_nil t)
      · rw [h] at hl
        rcases List.mem_cons.mp hl with h1 | h1
        · subst h1
          intro hmem
          rcases List.mem_cons.mp hmem with h2 | h2
          · exact hc h2.symm
          · exact ih p (by rw [h]; exact List.mem_cons_self p ps) h2
        · exact ih l (by rw [h]; exact List.mem_cons_of_mem p h1)

lemma splitNl_no_nl {s : List Char} (h : '\n' ∉ s) : splitNl s = [s] := by
  induction s with
  | nil => rfl
  | cons c t ih =>
    have hc : c ≠ '\n' := fun hh => h (hh ▸ List.mem_cons_self c t)
    have ht : '\n' ∉ t := fun hh => h (List.mem_cons_of_mem c hh)
    rw [splitNl, if_neg hc, ih ht]

lemma splitNl_append_nl (a b : List Char) :
    splitNl (a ++ '\n' :: b) = splitNl a ++ splitNl b := by
  induction a with
  | nil => simp [splitNl]
  | cons c t ih =>
    rw [List.cons_append, splitNl_cons, splitNl_cons, ih]
    by_cases hc : c = '\n'
    · rw [if_pos hc, if_pos hc]
      rfl
    · rw [if_neg hc, if_neg hc]
      rcases h : splitNl t with _ | ⟨p, ps⟩
      · exact absurd h (splitNl_ne_nil t)
      · simp

lemma joinNl_nil : joinNl [] = [] := rfl

lemma joinNl_single (l : List Char) : joinNl [l] = l := rfl

lemma joinNl_cons₂ (a b : List Char) (ls : List (List Char)) :
    joinNl (a :: b :: ls) = a ++ '\n' :: joinNl (b :: ls) := rfl

lemma joinNl_head? {c : List Char} (cs : List (List Char)) (hc : c ≠ []) :
    (joinNl (c :: cs)).head? = c.head? := by
  cases cs with
  | nil => rfl
  | cons d ds => exact List.head?_append_of_ne_nil c hc

lemma joinNl_ne_nil {cs : List (List Char)} (h0 : cs ≠ [])
    (h1 : ∀ l ∈ cs, l ≠ []) : joinNl cs ≠ [] := by
  cases cs with
  | nil => exact absurd rfl h0
  | cons c ds =>
    have hc : c ≠ [] := h1 c (List.mem_cons_self c ds)
    intro hcon
    have := joinNl_head? ds hc
    rw [hcon] at this
    rcases c with _ | ⟨x, xs⟩
    · exact hc rfl
    · simp at this

lemma joinNl_getLast? {cs : List (List Char)} {d : List Char}
    (h1 : ∀ l ∈ cs, l ≠ []) (hd : cs.getLast? = some d) :
    (joinNl cs).getLast? = d.getLast? := by
  induction cs with
  | nil => simp at hd
  | cons c ds ih =>
    cases ds with
    | nil =>
      have : c = d := by simpa using hd
      subst this
      rfl
    | cons e es =>
      have hd' : (e :: es).getLast? = some d := by
        rw [List.getLast?_cons_cons] at hd
        exact hd
      have h1' : ∀ l ∈ e :: es, l ≠ [] :=
        fun l hl => h1 l (List.mem_cons_of_mem c hl)
      rw [joinNl_cons₂, List.getLast?_append_of_ne_nil c (by simp)]
      have hne : joinNl (e :: es) ≠ [] := joinNl_ne_nil (by simp) h1'
      rcases hj : joinNl (e :: es) with _ | ⟨y, ys⟩
      · exact absurd hj hne
      · rw [List.getLast?_cons_cons, ← hj, ih h1' hd']

lemma joinNl_snoc {cs : List (List Char)} (h : cs ≠ []) (x : List Char) :
    joinNl (cs ++ [x]) = joinNl cs ++ '\n' :: x := by
  induction cs with
  | nil => exact absurd rfl h
  | cons c ds ih =>
    cases ds with
    | nil => rfl
    | cons e es =>
      calc joinNl ((c :: e :: es) ++ [x])
          = c ++ '\n' :: joinNl ((e :: es) ++ [x]) := rfl
        _ = c ++ '\n' :: (joinNl (e :: es) ++ '\n' :: x) := by
              rw [ih (by simp)]
        _ = (c ++ '\n' :: joinNl (e :: es)) ++ '\n' :: x := by simp
        _ = joinNl (c :: e :: es) ++ '\n' :: x := rfl

lemma splitNl_joinNl {cs : List (List Char)} (h0 : cs ≠ [])
    (h1 : ∀ l ∈ cs, '\n' ∉ l) : splitNl (joinNl cs) = cs := by
  induction cs with
  | nil => exact absurd rfl h0
  | cons c ds ih =>
    cases ds with
    | nil => exact splitNl_no_nl (h1 c (List.mem_cons_self c _))
    | cons e es =>
      rw [joinNl_cons₂, splitNl_append_nl,
        splitNl_no_nl (h1 c (List.mem_cons_self c _)),
        ih (by simp) (fun l hl => h1 l (List.mem_cons_of_mem c hl))]
      rfl

lemma splitNl_joinNl_flat {xs : List (List Char)} (h0 : xs ≠ []) :
    splitNl (joinNl xs) = xs.flatMap splitNl := by
  induction xs with
  | nil => exact absurd rfl h0
  | cons x ds ih =>
    cases ds with
    | nil => simp [joinNl_single]
    | cons e es =>
      rw [joinNl_cons₂, splitNl_append_nl, ih (by simp)]
      simp

/-! ### The chunker's accumulation invariant -/

lemma getLast?_mem {α : Type} {l : List α} {a : α} (h : l.getLast? = some a) :
    a ∈ l := by
  induction l with
  | nil => simp at h
  | cons x xs ih =>
    cases xs with
    | nil =>
      have : x = a := by simpa using h
      simp [this]
    | cons y ys =>
      rw [List.getLast?_cons_cons] at h
      exact List.mem_cons_of_mem x (ih h)

/-- A clean line as accumulated by the chunker: non-empty, trimmed,
newline-free. -/
def GoodLine (l : List Char) : Prop := l ≠ [] ∧ goTrim l = l ∧ '\n' ∉ l

lemma goodLine_goTrim {l : List Char} (h1 : '\n' ∉ l) (h2 : goTrim l ≠ []) :
    GoodLine (goTrim l) :=
  ⟨h2, goTrim_idem l, fun hm => h1 (goTrim_subset hm)⟩

lemma goTrim_joinNl_good {cs : List (List Char)} (h : ∀ l ∈ cs, GoodLine l) :
    goTrim (joinNl cs) = joinNl cs := by
  cases cs with
  | nil => rfl
  | cons c ds =>
    have hc : GoodLine c := h c (List.mem_cons_self c ds)
    apply goTrim_eq_self_of_ends
    · intro x hx
      rw [joinNl_head? ds hc.1] at hx
      exact goTrim_head_false hc.2.1 hx
    · intro x hx
      rcases hlast : (c :: ds).getLast? with _ | d
      · exact absurd (List.getLast?_eq_none_iff.mp hlast) (by simp)
      · have hd : GoodLine d := h d (getLast?_mem hlast)
        rw [joinNl_getLast? (fun l hl => (h l hl).1) hlast] at hx
        exact goTrim_getLast_false hd.2.1 hx

lemma joinNl_eq_nil_iff {cs : List (List Char)} (h : ∀ l ∈ cs, GoodLine l) :
    joinNl cs = [] ↔ cs = [] := by
  constructor
  · intro hnil
    by_contra h0
    exact joinNl_ne_nil h0 (fun l hl => (h l hl).1) hnil
  · intro h0; subst h0; rfl

lemma splitNl_joinNl_good {cs : List (List Char)} (h0 : cs ≠ [])
    (h : ∀ l ∈ cs, GoodLine l) : splitNl (joinNl cs) = cs :=
  splitNl_joinNl h0 (fun l hl => (h l hl).2.2)

/-- Size invariant the chunker maintains for the accumulated part: it is at
most a single line, or its joined text fits within the limit. -/
def PartOk (limit : Int) (cs : List (List Char)) : Prop :=
  cs.length ≤ 1 ∨ ((joinNl cs).length : Int) ≤ limit

/-- Every flushed chunk built from good lines under the size invariant is a
non-empty, self-trimmed piece whose lines are the accumulated lines, and is
within the limit or a single (oversized) line. -/
lemma chunk_facts {limit : Int} {cs : List (List Char)}
    (h : ∀ l ∈ cs, GoodLine l) (h0 : cs ≠ []) (hP : PartOk limit cs) :
    (∀ l ∈ splitNl (joinNl cs), GoodLine l) ∧ joinNl cs ≠ [] ∧
    goTrim (joinNl cs) = joinNl cs ∧
    (((joinNl cs).length : Int) ≤ limit ∨ (splitNl (joinNl cs)).length = 1) := by
  have hsp : splitNl (joinNl cs) = cs := splitNl_joinNl_good h0 h
  refine ⟨by rw [hsp]; exact h, ?_, goTrim_joinNl_good h, ?_⟩
  · exact (fun hnil => h0 ((joinNl_eq_nil_iff h).mp hnil))
  · rcases hP with hP | hP
    · right
      rw [hsp]
      have : cs.length ≠ 0 := fun hz => h0 (List.length_eq_zero.mp hz)
      omega
    · exact Or.inl hP

lemma splitLoop_nil (limit : Int) (current : List Char) :
    splitLoop limit [] current =
      if goTrim current = [] then [] else [goTrim current] := rfl

lemma splitLoop_cons (limit : Int) (l : List Char) (ls : List (List Char))
    (current : List Char) :
    splitLoop limit (l :: ls) current =
      if goTrim l = [] then splitLoop limit ls current
      else if limit < (current.length : Int) + (goTrim l).length + 1 ∧
          current ≠ [] then
        goTrim current :: splitLoop limit ls (goTrim l)
      else
        splitLoop limit ls
          (if current = [] then goTrim l else current ++ '\n' :: goTrim l) := rfl

/-- Master lemma for the chunker loop: starting from an accumulated part made
of good lines `cs` within the invariant, the lines of the produced chunks are
exactly `cs` followed by the trimmed non-blank remaining lines, and every
produced chunk is non-empty, self-trimmed, made of good lines, and within the
limit unless it is a single oversized line. -/
lemma splitLoop_master (limit : Int) (ls : List (List Char))
    (hls : ∀ l ∈ ls, '\n' ∉ l) :
    ∀ cs : List (List Char), (∀ l ∈ cs, GoodLine l) → PartOk limit cs →
      ((splitLoop limit ls (joinNl cs)).flatMap splitNl
          = cs ++ (ls.map goTrim).filter (fun l => !l.isEmpty))
      ∧ ∀ chunk ∈ splitLoop limit ls (joinNl cs),
          (∀ l ∈ splitNl chunk, GoodLine l) ∧ chunk ≠ [] ∧
          goTrim chunk = chunk ∧
          ((chunk.length : Int) ≤ limit ∨ (splitNl chunk).length = 1) := by
  induction ls with
  | nil =>
    intro cs hgood hP
    rw [splitLoop_nil, goTrim_joinNl_good hgood]
    by_cases h0 : cs = []
    · subst h0
      simp [joinNl_nil]
    · rw [if_neg (fun hnil => h0 ((joinNl_eq_nil_iff hgood).mp hnil))]
      obtain ⟨hf1, hf2, hf3, hf4⟩ := chunk_facts hgood h0 hP
      constructor
      · simp [splitNl_joinNl_good h0 hgood]
      · intro chunk hchunk
        have : chunk = joinNl cs := by simpa using hchunk
        subst this
        exact ⟨hf1, hf2, hf3, hf4⟩
  | cons l ls ih =>
    intro cs hgood hP
    have hls' : ∀ x ∈ ls, '\n' ∉ x := fun x hx => hls x (List.mem_cons_of_mem l hx)
    have hlnl : '\n' ∉ l := hls l (List.mem_cons_self l ls)
    rw [splitLoop_cons]
    by_cases hskip : goTrim l = []
    · rw [if_pos hskip]
      obtain ⟨ha, hb⟩ := ih hls' cs hgood hP
      refine ⟨?_, hb⟩
      rw [ha]
      simp [List.filter_cons, hskip]
    · rw [if_neg hskip]
      have hgl : GoodLine (goTrim l) := goodLine_goTrim hlnl hskip
      by_cases hflush : limit < (joinNl cs).length + ((goTrim l).length : Int) + 1 ∧
          joinNl cs ≠ []
      · rw [if_pos hflush]
        have h0 : cs ≠ [] := fun hnil => hflush.2 (by rw [hnil]; rfl)
        obtain ⟨hf1, hf2, hf3, hf4⟩ := chunk_facts hgood h0 hP
        have hsingle : ∀ x ∈ [goTrim l], GoodLine x := by
          intro x hx
          have : x = goTrim l := by simpa using hx
          subst this; exact hgl
        have hPs : PartOk limit [goTrim l] := Or.inl (by simp)
        obtain ⟨ha, hb⟩ := ih hls' [goTrim l] hsingle hPs
        rw [joinNl_single] at ha hb
        constructor
        · rw [goTrim_joinNl_good hgood, List.flatMap_cons, ha,
            splitNl_joinNl_good h0 hgood]
          simp [List.filter_cons, hskip]
        · intro chunk hchunk
          rw [goTrim_joinNl_good hgood] at hchunk
          rcases List.mem_cons.mp hchunk with hc | hc
          · subst hc
            exact ⟨hf1, hf2, hf3, hf4⟩
          · exact hb chunk hc
      · rw [if_neg hflush]
        by_cases h0 : cs = []
        · subst h0
          rw [show joinNl ([] : List (List Char)) = [] from rfl, if_pos rfl]
          have hsingle : ∀ x ∈ [goTrim l], GoodLine x := by
            intro x hx
            have : x = goTrim l := by simpa using hx
            subst this; exact hgl
          obtain ⟨ha, hb⟩ := ih hls' [goTrim l] hsingle (Or.inl (by simp))
          rw [joinNl_single] at ha hb
          refine ⟨?_, hb⟩
          rw [ha]
          simp [List.filter_cons, hskip]
        · have hjne : joinNl cs ≠ [] :=
            fun hnil => h0 ((joinNl_eq_nil_iff hgood).mp hnil)
          rw [if_neg hjne]
          have hfit : ((joinNl cs).length : Int) + (goTrim l).length + 1 ≤ limit := by
            rcases not_and_or.mp hflush with hn | hn
            · omega
            · exact absurd hjne hn
          have hsnoc : joinNl cs ++ '\n' :: goTrim l = joinNl (cs ++ [goTrim l]) :=
            (joinNl_snoc h0 (goTrim l)).symm
          have hgood' : ∀ x ∈ cs ++ [goTrim l], GoodLine x := by
            intro x hx
            rcases List.mem_append.mp hx with hx | hx
            · exact hgood x hx
            · have : x = goTrim l := by simpa using hx
              subst this; exact hgl
          have hP' : PartOk limit (cs ++ [goTrim l]) := by
            right
            rw [← hsnoc]
            simp only [List.length_append, List.length_cons]
            push_cast
            omega
          obtain ⟨ha, hb⟩ := ih hls' (cs ++ [goTrim l]) hgood' hP'
          rw [hsnoc]
          refine ⟨?_, hb⟩
          rw [ha, List.append_assoc]
          simp [List.filter_cons, hskip]

/-! ### Cleaned lines are invariant under trimming the whole text -/

lemma cleanParts_append (ps qs : List (List Char)) :
    cleanParts (ps ++ qs) = cleanParts ps ++ cleanParts qs := by
  simp [cleanParts]

lemma cleanL_append_nl (x z : List Char) :
    cleanL (x ++ '\n' :: z) = cleanL x ++ cleanL z := by
  rw [cleanL, splitNl_append_nl, cleanParts_append]
  rfl

lemma cleanL_cons_space {c : Char} (hc : goIsSpace c = true) (t : List Char) :
    cleanL (c :: t) = cleanL t := by
  by_cases hnl : c = '\n'
  · subst hnl
    rw [cleanL, splitNl_cons, if_pos rfl]
    simp [cleanL, cleanParts, List.filter_cons, goTrim_nil]
  · rw [cleanL, splitNl_cons, if_neg hnl]
    rcases h : splitNl t with _ | ⟨p, ps⟩
    · exact absurd h (splitNl_ne_nil t)
    · rw [cleanL, h]
      simp [cleanParts, List.filter_cons, goTrim_cons_space hc]

lemma cleanL_trimL (s : List Char) : cleanL (trimL s) = cleanL s := by
  induction s with
  | nil => rfl
  | cons c t ih =>
    by_cases hc : goIsSpace c = true
    · rw [trimL_cons_space hc, ih, cleanL_cons_space hc]
    · rw [trimL, List.dropWhile_cons_of_neg hc]

lemma trimR_snoc_space {c : Char} (hc : goIsSpace c = true) (x : List Char) :
    trimR (x ++ [c]) = trimR x := by
  rw [trimR, trimR, List.reverse_append]
  simp [List.dropWhile_cons, hc]

lemma goTrim_snoc_space {c : Char} (hc : goIsSpace c = true) (t : List Char) :
    goTrim (t ++ [c]) = goTrim t := by
  rw [goTrim, goTrim, trimL, trimL, List.dropWhile_append]
  by_cases h : (t.dropWhile goIsSpace).isEmpty = true
  · rw [if_pos h]
    have h1 : List.dropWhile goIsSpace [c] = [] := by
      simp [List.dropWhile_cons, hc]
    rw [h1, List.isEmpty_iff.mp h]
  · rw [if_neg h]
    exact trimR_snoc_space hc _

lemma cleanL_snoc_space {c : Char} (hc : goIsSpace c = true) :
    ∀ (n : Nat) (t : List Char), t.length ≤ n → cleanL (t ++ [c]) = cleanL t := by
  intro n
  induction n with
  | zero =>
    intro t ht
    have h0 : t = [] := List.length_eq_zero.mp (Nat.le_zero.mp ht)
    subst h0
    by_cases hnl : c = '\n'
    · subst hnl; rfl
    · have hmm : '\n' ∉ [c] := by
        intro hin; simp at hin; exact hnl hin.symm
      have hz : goTrim [c] = [] :=
        goTrim_eq_nil_of_all_space (by intro d hd; simp at hd; rw [hd]; exact hc)
      rw [List.nil_append, cleanL, splitNl_no_nl hmm,
        show cleanL [] = [] from rfl]
      simp [cleanParts, List.filter_cons, hz]
  | succ n ih =>
    intro t ht
    by_cases hmem : '\n' ∈ t
    · have hx := List.takeWhile_append_dropWhile (fun d => !(d == '\n')) t
      rcases hdw : t.dropWhile (fun d => !(d == '\n')) with _ | ⟨d, y⟩
      · exfalso
        have := List.dropWhile_eq_nil_iff.mp hdw '\n' hmem
        simp at this
      · have hd : d = '\n' := by
          have := dropWhile_head_false (p := fun d => !(d == '\n')) hdw
          simpa using this
        subst hd
        set x := t.takeWhile (fun d => !(d == '\n')) with hxdef
        have hteq : t = x ++ '\n' :: y := by rw [← hx, hdw]
        have hylen : y.length ≤ n := by
          have : t.length = x.length + (y.length + 1) := by
            rw [hteq]; simp
          omega
        calc cleanL (t ++ [c]) = cleanL (x ++ '\n' :: (y ++ [c])) := by
              rw [hteq]; simp
          _ = cleanL x ++ cleanL (y ++ [c]) := cleanL_append_nl x (y ++ [c])
          _ = cleanL x ++ cleanL y := by rw [ih y hylen]
          _ = cleanL t := by rw [hteq, cleanL_append_nl]
    · by_cases hcn : c = '\n'
      · subst hcn
        rw [show t ++ ['\n'] = t ++ '\n' :: [] from rfl, cleanL_append_nl,
          show cleanL [] = [] from rfl, List.append_nil]
      · have hmem' : '\n' ∉ t ++ [c] := by
          intro hin
          rcases List.mem_append.mp hin with h1 | h1
          · exact hmem h1
          · simp at h1; exact hcn h1.symm
        rw [cleanL, splitNl_no_nl hmem', cleanL, splitNl_no_nl hmem]
        simp [cleanParts, List.filter_cons, goTrim_snoc_space hc]

lemma cleanL_append_space {w : List Char}
    (hw : ∀ c ∈ w, goIsSpace c = true) : ∀ u, cleanL (u ++ w) = cleanL u := by
  induction w with
  | nil => simp
  | cons c w' ih =>
    intro u
    have hsplit : u ++ c :: w' = (u ++ [c]) ++ w' := by simp
    rw [hsplit, ih (fun d hd => hw d (List.mem_cons_of_mem c hd)) (u ++ [c]),
      cleanL_snoc_space (hw c (List.mem_cons_self c w')) (u.length) u le_rfl]

lemma cleanL_goTrim (s : List Char) : cleanL (goTrim s) = cleanL s := by
  have hdec := trimR_decomp (trimL s)
  have hw : ∀ c ∈ ((trimL s).reverse.takeWhile goIsSpace).reverse,
      goIsSpace c = true := by
    intro d hd
    exact List.mem_takeWhile_imp (by simpa using hd)
  calc cleanL (goTrim s)
      = cleanL (goTrim s ++ ((trimL s).reverse.takeWhile goIsSpace).reverse) :=
        (cleanL_append_space hw _).symm
    _ = cleanL (trimL s) := by rw [goTrim, ← hdec]
    _ = cleanL s := cleanL_trimL s

/-! ### Chunker specification, assembled -/

lemma cleanParts_good {ps : List (List Char)} (h : ∀ l ∈ ps, GoodLine l) :
    cleanParts ps = ps := by
  induction ps with
  | nil => rfl
  | cons p ps ih =>
    have hp := h p (List.mem_cons_self p ps)
    have hne : p.isEmpty = false := by
      rcases p with _ | _
      · exact absurd rfl hp.1
      · rfl
    simp only [cleanParts, List.map_cons, List.filter_cons, hp.2.1, hne,
      Bool.not_false, if_true]
    show p :: cleanParts ps = p :: ps
    exact congrArg (p :: ·) (ih (fun l hl => h l (List.mem_cons_of_mem p hl)))

lemma splitMessageCore_spec (text : List Char) (limit : Int) :
    (splitMessageCore text limit).flatMap splitNl = cleanL text
    ∧ ∀ chunk ∈ splitMessageCore text limit,
        (∀ l ∈ splitNl chunk, GoodLine l) ∧ chunk ≠ [] ∧ goTrim chunk = chunk ∧
        ((chunk.length : Int) ≤ limit ∨ (splitNl chunk).length = 1) := by
  have h := splitLoop_master limit (splitNl (goTrim text)) nl_not_mem_splitNl
    [] (by simp) (Or.inl (by simp))
  rw [joinNl_nil] at h
  obtain ⟨ha, hb⟩ := h
  refine ⟨?_, hb⟩
  rw [splitMessageCore, ha, List.nil_append]
  show cleanL (goTrim text) = cleanL text
  exact cleanL_goTrim text

lemma cleanL_joinNl_chunks {xs : List (List Char)}
    (h : ∀ x ∈ xs, ∀ l ∈ splitNl x, GoodLine l) :
    cleanL (joinNl xs) = xs.flatMap splitNl := by
  cases xs with
  | nil => rfl
  | cons a as =>
    rw [cleanL, splitNl_joinNl_flat (by simp)]
    apply cleanParts_good
    intro l hl
    rcases List.mem_flatMap.mp hl with ⟨x, hx, hlx⟩
    exact h x hx l hlx

/-! ## Response formatter (internal/formatter/formatter.go) -/

/-- Calendar date carried by a `time.Time`, as rendered by Go's layout
string "2006-01-02" (zero-padded year, month and day). -/
structure GoDate where
  year : Nat
  month : Nat
  day : Nat
deriving DecidableEq

def pad2 (n : Nat) : String := if n < 10 then "0" ++ toString n else toString n

def pad4 (n : Nat) : String :=
  if n < 10 then "000" ++ toString n
  else if n < 100 then "00" ++ toString n
  else if n < 1000 then "0" ++ toString n
  else toString n

/-- Go's `t.Format("2006-01-02")`. -/
def GoDate.format (d : GoDate) : String :=
  pad4 d.year ++ "-" ++ pad2 d.month ++ "-" ++ pad2 d.day

/-- Record `fetcher.Follow` (internal/fetcher/fetcher.go); the timestamp is kept as
the calendar date the formatter renders. -/
structure Follow where
  id : String
  displayName : String
  login : String
  avatar : String
  followedAt : GoDate
  isLive : Bool
deriving DecidableEq

/-- Record `fetcher.Mod`. -/
structure Mod where
  id : String
  displayName : String
  login : String
  avatar : String
  grantedAt : GoDate
  banned : Bool
deriving DecidableEq

/-- Record `fetcher.Vip`. -/
structure Vip where
  id : String
  displayName : String
  login : String
  avatar : String
  grantedAt : GoDate
  banned : Bool
deriving DecidableEq

/-- Record `fetcher.Founders`. -/
structure Founders where
  id : String
  displayName : String
  login : String
  firstMonth : GoDate
  isSubscribed : Bool
  avatar : String
  banned : Bool
deriving DecidableEq

def followsHeader (username : String) : String :=
  "<a href=\"https://twitch.tv/" ++ username ++ "\">" ++ username ++
    "</a> is following:\n"

def modsHeader (username : String) : String :=
  "<a href=\"https://twitch.tv/" ++ username ++ "\">" ++ username ++
    "</a>'s list of channel moders:\n"

def vipsHeader (username : String) : String :=
  "<a href=\"https://twitch.tv/" ++ username ++ "\">" ++ username ++
    "</a>'s list of channel vips:\n"

def foundersHeader (username : String) : String :=
  "<a href=\"https://twitch.tv/" ++ username ++ "\">" ++ username ++
    "</a>'s list of channel founders:\n"

/-- One numbered line of `FormatFollows` (`n` is the 1-based index). -/
def followEntry (n : Nat) (f : Follow) : String :=
  toString n ++ ". <a href=\"" ++ ("https://twitch.tv/" ++ f.login) ++ "\">" ++
    f.displayName ++ "</a> (followed at " ++ f.followedAt.format ++ ")\n"

/-- One numbered line of `FormatMods`. -/
def modEntry (n : Nat) (m : Mod) : String :=
  toString n ++ ". <a href=\"" ++ ("https://twitch.tv/" ++ m.login) ++ "\">" ++
    m.displayName ++ "</a> (moded at " ++ m.grantedAt.format ++ ")\n"

/-- One numbered line of `FormatVips`. -/
def vipEntry (n : Nat) (v : Vip) : String :=
  toString n ++ ". <a href=\"" ++ ("https://twitch.tv/" ++ v.login) ++ "\">" ++
    v.displayName ++ "</a> (viped at " ++ v.grantedAt.format ++ ")\n"

/-- One numbered line of `FormatFounders`. -/
def founderEntry (n : Nat) (d : Founders) : String :=
  toString n ++ ". <a href=\"" ++ ("https://twitch.tv/" ++ d.login) ++ "\">" ++
    d.displayName ++ "</a> (founded at " ++ d.firstMonth.format ++ ")\n"

/-- The `for i, r := range rs` accumulation loop shared by the four
formatters: append `entry n r` for consecutive indices `n`. -/
def formatEntries {α : Type} (entry : Nat → α → String) :
    Nat → List α → String
  | _, [] => ""
  | n, r :: rs => entry n r ++ formatEntries entry (n + 1) rs

/-- Transcribes `formatter.FormatFollows`. -/
def FormatFollows (username : String) (follows : List Follow) : String :=
  followsHeader username ++ formatEntries followEntry 1 follows

/-- Transcribes `formatter.FormatMods`. -/
def FormatMods (username : String) (mods : List Mod) : String :=
  modsHeader username ++ formatEntries modEntry 1 mods

/-- Transcribes `formatter.FormatVips`. -/
def FormatVips (username : String) (vips : List Vip) : String :=
  vipsHeader username ++ formatEntries vipEntry 1 vips

/-- Transcribes `formatter.FormatFounders`. -/
def FormatFounders (username : String) (founders : List Founders) : String :=
  foundersHeader username ++ formatEntries founderEntry 1 founders

/-- Concatenation of a list of strings. -/
def strConcat : List String → String
  | [] => ""
  | s :: ss => s ++ strConcat ss

/-! ## Data fetcher (internal/fetcher/fetcher.go) -/

/-- An HTTP response as the fetch functions see it after a successful
transport round-trip: the status code, and the outcome of JSON-decoding the
body into a list of records (`Except.error` carries the decoder's message). -/
structure HttpResponse (α : Type) where
  statusCode : Nat
  decoded : Except String (List α)

/-- Status handling of `Fetcher.FetchFollows`, transcribed from the source:
non-200 statuses map to domain errors (400 and 404 specially), 200 decodes
the body. -/
def FetchFollows (resp : HttpResponse Follow) : Except String (List Follow) :=
  if resp.statusCode ≠ 200 then
    if resp.statusCode = 400 then .error "the user does not follow any channel"
    else if resp.statusCode = 404 then .error "user not found"
    else .error ("unexpected status code: " ++ toString resp.statusCode)
  else
    match resp.decoded with
    | .error e => .error ("failed to decode response: " ++ e)
    | .ok follows => .ok follows

/-- Status handling of `Fetcher.FetchMods`. -/
def FetchMods (resp : HttpResponse Mod) : Except String (List Mod) :=
  if resp.statusCode ≠ 200 then
    if resp.statusCode = 400 then
      .error "the user does not have any moderators on their channel"
    else if resp.statusCode = 404 then .error "user not found"
    else .error ("unexpected status code: " ++ toString resp.statusCode)
  else
    match resp.decoded with
    | .error e => .error ("failed to decode response: " ++ e)
    | .ok mods => .ok mods

/-- Status handling of `Fetcher.FetchVips`. -/
def FetchVips (resp : HttpResponse Vip) : Except String (List Vip) :=
  if resp.statusCode ≠ 200 then
    if resp.statusCode = 400 then
      .error "the user does not have any VIPs on their channel"
    else if resp.statusCode = 404 then .error "user not found"
    else .error ("unexpected status code: " ++ toString resp.statusCode)
  else
    match resp.decoded with
    | .error e => .error ("failed to decode response: " ++ e)
    | .ok vips => .ok vips

/-- Status handling of `Fetcher.FetchFounders`. -/
def FetchFounders (resp : HttpResponse Founders) : Except String (List Founders) :=
  if resp.statusCode ≠ 200 then
    if resp.statusCode = 400 then
      .error "the user does not have any founders on their channel"
    else if resp.statusCode = 404 then .error "user not found"
    else .error ("unexpected status code: " ++ toString resp.statusCode)
  else
    match resp.decoded with
    | .error e => .error ("failed to decode response: " ++ e)
    | .ok founders => .ok founders

/-! ## Configuration (pkg/config/config.go) -/

/-- Record `config.Config`. -/
structure Config where
  telegramToken : String
deriving DecidableEq

/-- The environment `config.Load` runs in: the contents of the local `.env`
file (`none` when the file is missing or unreadable) and the process
environment with `os.Getenv` semantics (the empty string when unset). -/
structure OsEnv where
  dotenvFile : Option (List (String × String))
  env : String → String

def lookupKv : List (String × String) → String → String
  | [], _ => ""
  | (k, v) :: rest, key => if k = key then v else lookupKv rest key

/-- The process environment after a successful `godotenv.Load`: values from
the `.env` file fill in keys absent from the process environment (godotenv
does not override variables already present). -/
def mergedEnv (e : OsEnv) (kvs : List (String × String)) : String → String :=
  fun k => if e.env k ≠ "" then e.env k else lookupKv kvs k

/-- Models the `godotenv` dependency's documented behaviour for
`godotenv.Load()` (the library itself is outside this repository): it fails
when the `.env` file cannot be opened, and otherwise sets each key from the
file into the process environment unless that key is already present. -/
def godotenvLoad (e : OsEnv) : Except String OsEnv :=
  match e.dotenvFile with
  | none => .error "open .env: no such file or directory"
  | some kvs => .ok { e with env := mergedEnv e kvs }

/-- Transcribes `config.validate`. -/
def validate (c : Config) : Option String :=
  if c.telegramToken = "" then some "TELEGRAM_TOKEN is required" else none

/-- Transcribes `config.Load`: propagate a `godotenv.Load` failure, read
`TELEGRAM_TOKEN`, validate. -/
def Load (e : OsEnv) : Except String Config :=
  match godotenvLoad e with
  | .error err => .error err
  | .ok ep =>
    let cfg : Config := { telegramToken := ep.env "TELEGRAM_TOKEN" }
    match validate cfg with
    | some err => .error err
    | none => .ok cfg

/-! ## Conversation controller (internal/bot/bot.go, internal/bot/view.go) -/

/-- Record `bot.UserState`. -/
structure UserState where
  awaitingUsername : Bool
  pressedButton : String
deriving DecidableEq

/-- The `bot.Fetcher` interface, as oracles giving each fetch call's
outcome (Go's `([]T, error)` return). -/
structure BotFetcher where
  fetchFollows : String → Except String (List Follow)
  fetchMods : String → Except String (List Mod)
  fetchVips : String → Except String (List Vip)
  fetchFounders : String → Except String (List Founders)

/-- Observable effects of handling updates: fetcher invocations, messages
sent, the start keyboard sent (`ViewCmdStart`), and callback
acknowledgements. -/
inductive Event
  | fetchCall (button username : String)
  | sentMessage (chatID : Int) (text : String)
  | sentKeyboard (chatID : Int)
  | callbackAck (data : String)
deriving DecidableEq

/-- The bot's mutable state: the per-chat `userState` map. -/
structure BotState where
  userState : Int → Option UserState

def emptyBotState : BotState := ⟨fun _ => none⟩

def stateSet (s : BotState) (k : Int) (v : UserState) : BotState :=
  ⟨fun q => if q = k then some v else s.userState q⟩

def stateDelete (s : BotState) (k : Int) : BotState :=
  ⟨fun q => if q = k then none else s.userState q⟩

/-- The parts of a Telegram message the controller reads: sender id, chat id,
text, and whether/which slash command it is. -/
structure MessageInfo where
  fromID : Int
  chatID : Int
  text : String
  isCommand : Bool
  command : String
deriving DecidableEq

/-- An inbound update: a callback query (button press, with the chat id of
the message it is attached to), a message, or anything else
(`update.Message == nil`). -/
inductive Update
  | callback (chatID : Int) (data : String)
  | message (m : MessageInfo)
  | empty
deriving DecidableEq

/-- Constant `telegramMessageLimit` of internal/bot/bot.go. -/
def telegramMessageLimit : Int := 4096

def isFetchCall : Event → Bool
  | .fetchCall _ _ => true
  | _ => false

/-- Transcribes `bot.processRequest`: dispatch on the pressed button, invoke the fetcher,
format; returns Go's `(string, error)` pair together with the fetch calls
performed. -/
def processRequest (f : BotFetcher) (username button : String) :
    (String × Option String) × List Event :=
  if button = "follows" then
    match f.fetchFollows username with
    | .error e => (("", some e), [.fetchCall "follows" username])
    | .ok follows =>
        ((FormatFollows username follows, none), [.fetchCall "follows" username])
  else if button = "moders" then
    match f.fetchMods username with
    | .error e => (("", some e), [.fetchCall "moders" username])
    | .ok mods =>
        ((FormatMods username mods, none), [.fetchCall "moders" username])
  else if button = "vips" then
    match f.fetchVips username with
    | .error e => (("", some e), [.fetchCall "vips" username])
    | .ok vips =>
        ((FormatVips username vips, none), [.fetchCall "vips" username])
  else if button = "founders" then
    match f.fetchFounders username with
    | .error e => (("", some e), [.fetchCall "founders" username])
    | .ok founders =>
        ((FormatFounders username founders, none), [.fetchCall "founders" username])
  else (("", some ("unknown button: " ++ button)), [])

/-- Transcribes `bot.isAwaitingUsername`: `state, ok := b.userState[chatID]; return ok &&
state.AwaitingUsername`. -/
def isAwaitingUsername (s : BotState) (chatID : Int) : Bool :=
  match s.userState chatID with
  | some st => st.awaitingUsername
  | none => false

/-- Transcribes `bot.handleCallback`: acknowledge the callback, record the pending
session under the chat id, prompt for the channel name. -/
def handleCallback (s : BotState) (chatID : Int) (data : String) :
    BotState × List Event :=
  (stateSet s chatID ⟨true, data⟩,
    [.callbackAck data, .sentMessage chatID "Enter the channel name:"])

/-- Transcribes `bot.handleCommand`, with the command map as populated in cmd/main.go
(only "start" is registered, to `ViewCmdStart`, which sends the start
keyboard); unknown commands reply "Unknown command." and redisplay the
menu. -/
def handleCommand (s : BotState) (m : MessageInfo) : BotState × List Event :=
  if m.command = "start" then (s, [.sentKeyboard m.chatID])
  else (s, [.sentMessage m.chatID "Unknown command.", .sentKeyboard m.chatID])

/-- Transcribes `bot.handleUserInput`: the message text is the username; the pending
state is read under the sender id and deleted under the chat id; a fetch
error is reported ("Failed to fetch data: <err>.") and the menu redisplayed;
otherwise the formatted response is chunked and sent, then the menu
redisplayed. -/
def handleUserInput (f : BotFetcher) (s : BotState) (m : MessageInfo) :
    BotState × List Event :=
  let username := m.text
  let state := (s.userState m.fromID).getD ⟨false, ""⟩
  let s1 := stateDelete s m.chatID
  match processRequest f username state.pressedButton with
  | ((_, some e), evs) =>
      (s1, evs ++ [.sentMessage m.chatID ("Failed to fetch data: " ++ e ++ "."),
        .sentKeyboard m.chatID])
  | ((response, none), evs) =>
      (s1, evs ++ (SplitMessage response telegramMessageLimit).map
          (Event.sentMessage m.chatID) ++ [.sentKeyboard m.chatID])

/-- Transcribes `bot.handleUpdate`: callbacks go to `handleCallback`; messages go to the
pending-username handler when a session is awaiting input (keyed by sender
id), else to the command handler, else the menu is redisplayed. -/
def handleUpdate (f : BotFetcher) (s : BotState) (u : Update) :
    BotState × List Event :=
  match u with
  | .callback chatID data => handleCallback s chatID data
  | .empty => (s, [])
  | .message m =>
    if isAwaitingUsername s m.fromID then handleUserInput f s m
    else if m.isCommand then handleCommand s m
    else (s, [.sentKeyboard m.chatID])

/-- Outcome of running the update loop on a queue of updates: either every
update was handled, or the process exited early (Go's `log.Fatalf` calls
`os.Exit(1)`), with the updates that were never processed. -/
inductive RunResult
  | completed (events : List Event)
  | exitedByFatal (events : List Event) (unprocessed : List Update)
deriving DecidableEq

/-- The `bot.Start` update loop over a queue of updates.  Whether handling an
update panics is an oracle (`panics`), since panics arise from runtime faults
outside the pure embedding; the transcribed behaviour on a panic is that of
the `defer`red handler in `handleUpdate`: `recover` catches it and passes it
to `log.Fatalf`, which logs and terminates the whole process. -/
def runUpdates (f : BotFetcher) (panics : Update → Bool) :
    BotState → List Update → RunResult
  | _, [] => .completed []
  | s, u :: us =>
    if panics u then .exitedByFatal [] us
    else
      match handleUpdate f s u with
      | (s1, evs) =>
        match runUpdates f panics s1 us with
        | .completed es => .completed (evs ++ es)
        | .exitedByFatal es rem => .exitedByFatal (evs ++ es) rem

/-! ### Bridge lemmas -/

lemma splitMessage_map_data (text : String) (limit : Int) :
    (SplitMessage text limit).map String.data = splitMessageCore text.data limit := by
  rw [SplitMessage, List.map_map]
  have h : (String.data ∘ fun cs => (⟨cs⟩ : String)) = id := funext fun cs => rfl
  rw [h, List.map_id]

lemma formatEntries_eq_strConcat {α : Type} (entry : Nat → α → String) :
    ∀ (rs : List α) (n : Nat),
      formatEntries entry n rs
        = strConcat ((rs.enumFrom n).map fun p => entry p.1 p.2) := by
  intro rs
  induction rs with
  | nil => intro n; rfl
  | cons r rs ih =>
    intro n
    show entry n r ++ formatEntries entry (n + 1) rs = _
    rw [List.enumFrom_cons, List.map_cons, ih (n + 1)]
    rfl

lemma enumFrom_map_shift {α : Type} (g : Nat → α → String) :
    ∀ (rs : List α) (n : Nat),
      (rs.enumFrom n).map (fun p => g (p.1 + 1) p.2)
        = (rs.enumFrom (n + 1)).map fun p => g p.1 p.2 := by
  intro rs
  induction rs with
  | nil => intro n; rfl
  | cons r rs ih =>
    intro n
    rw [List.enumFrom_cons, List.enumFrom_cons, List.map_cons, List.map_cons,
      ih (n + 1)]

lemma stateSet_same (s : BotState) (k : Int) (v : UserState) :
    (stateSet s k v).userState k = some v := by simp [stateSet]

lemma stateDelete_same (s : BotState) (k : Int) :
    (stateDelete s k).userState k = none := by simp [stateDelete]

lemma filter_fetch_sentMessages (c : Int) (xs : List String) :
    (xs.map (Event.sentMessage c)).filter isFetchCall = [] := by
  rw [List.filter_eq_nil_iff]
  intro a ha
  rcases List.mem_map.mp ha with ⟨x, _, hx⟩
  rw [← hx]
  simp [isFetchCall]

lemma handleUpdate_message_awaiting (f : BotFetcher) (s : BotState)
    (m : MessageInfo) (h : isAwaitingUsername s m.fromID = true) :
    handleUpdate f s (.message m) = handleUserInput f s m := by
  simp [handleUpdate, h]

lemma handleUpdate_message_idle (f : BotFetcher) (s : BotState)
    (m : MessageInfo) (h : isAwaitingUsername s m.fromID = false)
    (hcmd : m.isCommand = false) :
    handleUpdate f s (.message m) = (s, [.sentKeyboard m.chatID]) := by
  simp [handleUpdate, h, hcmd]

lemma handleUserInput_eq (f : BotFetcher) (s : BotState) (m : MessageInfo) :
    handleUserInput f s m =
      match processRequest f m.text
          ((s.userState m.fromID).getD ⟨false, ""⟩).pressedButton with
      | ((_, some e), evs) =>
          (stateDelete s m.chatID,
            evs ++ [.sentMessage m.chatID ("Failed to fetch data: " ++ e ++ "."),
              .sentKeyboard m.chatID])
      | ((response, none), evs) =>
          (stateDelete s m.chatID,
            evs ++ (SplitMessage response telegramMessageLimit).map
                (Event.sentMessage m.chatID) ++ [.sentKeyboard m.chatID]) := rfl

lemma processRequest_vips (f : BotFetcher) (username : String) :
    processRequest f username "vips"
      = (match f.fetchVips username with
         | .error e => (("", some e), [.fetchCall "vips" username])
         | .ok vips =>
             ((FormatVips username vips, none), [.fetchCall "vips" username])) := by
  rw [processRequest, if_neg (by decide), if_neg (by decide), if_pos rfl]

/-! ## Claim theorems -/

/-- C2: for every input string and every limit at least the length of the
longest trimmed line, joining the chunks returned by `SplitMessage` with
newlines and removing blank lines equals the input with every line trimmed
and blank lines removed — no text is lost, duplicated or reordered. -/
theorem splitMessage_preserves_content (text : String) (limit : Int)
    (hlimit : ∀ l ∈ splitNl text.data, ((goTrim l).length : Int) ≤ limit) :
    joinLines (normLines (joinLines (SplitMessage text limit)))
      = joinLines (normLines text) := by
  apply congrArg joinLines
  obtain ⟨ha, hb⟩ := splitMessageCore_spec text.data limit
  have hgood : ∀ x ∈ splitMessageCore text.data limit,
      ∀ l ∈ splitNl x, GoodLine l := fun x hx => (hb x hx).1
  show (cleanL (joinNl ((SplitMessage text limit).map String.data))).map
      (fun cs => (⟨cs⟩ : String)) = (cleanL text.data).map fun cs => (⟨cs⟩ : String)
  rw [splitMessage_map_data, cleanL_joinNl_chunks hgood, ha]

/-- Witness for C2: text "a\nbb" with limit 2 satisfies the hypothesis and
the conclusion. -/
theorem splitMessage_preserves_content_witness :
    (∀ l ∈ splitNl ("a\nbb" : String).data, ((goTrim l).length : Int) ≤ 2)
    ∧ joinLines (normLines (joinLines (SplitMessage "a\nbb" 2)))
      = joinLines (normLines "a\nbb") :=
  ⟨by decide, splitMessage_preserves_content "a\nbb" 2 (by decide)⟩

/-- C3: every chunk of `SplitMessage` is non-empty and not all-whitespace,
consists only of whole trimmed non-blank input lines (no line is split across
chunks), and either fits the limit or is a single trimmed line longer than
the limit, kept intact; in particular, the input with lines
["a", "", "b", "xxxxxxxxxx"] at limit 5 yields ["a\nb", "xxxxxxxxxx"]. -/
theorem splitMessage_chunks (text : String) (limit : Int) :
    (∀ chunk ∈ SplitMessage text limit,
      chunk.data ≠ [] ∧ goTrim chunk.data ≠ [] ∧
      (∀ l ∈ splitNl chunk.data, l ∈ cleanL text.data) ∧
      ((chunk.data.length : Int) ≤ limit ∨
        ((splitNl chunk.data).length = 1 ∧ limit < (chunk.data.length : Int))))
    ∧ SplitMessage "a\n\nb\nxxxxxxxxxx" 5 = ["a\nb", "xxxxxxxxxx"] := by
  constructor
  · intro chunk hchunk
    obtain ⟨ha, hb⟩ := splitMessageCore_spec text.data limit
    have hmem : chunk.data ∈ splitMessageCore text.data limit := by
      rw [SplitMessage] at hchunk
      rcases List.mem_map.mp hchunk with ⟨cs, hcs, heq⟩
      rw [← heq]
      exact hcs
    obtain ⟨h1, h2, h3, h4⟩ := hb chunk.data hmem
    refine ⟨h2, ?_, ?_, ?_⟩
    · rw [h3]; exact h2
    · intro l hl
      rw [← ha]
      exact List.mem_flatMap.mpr ⟨chunk.data, hmem, hl⟩
    · rcases h4 with h4 | h4
      · exact Or.inl h4
      · by_cases hle : (chunk.data.length : Int) ≤ limit
        · exact Or.inl hle
        · exact Or.inr ⟨h4, not_le.mp hle⟩
  · decide

/-- Witness for C3: the chunk "a\nb" of the concrete split at limit 5 has all
the claimed properties. -/
theorem splitMessage_chunks_witness :
    (("a\nb" : String) ∈ SplitMessage "a\n\nb\nxxxxxxxxxx" 5
      ∧ ("a\nb" : String).data ≠ [] ∧ goTrim ("a\nb" : String).data ≠ []
      ∧ (∀ l ∈ splitNl ("a\nb" : String).data,
          l ∈ cleanL ("a\n\nb\nxxxxxxxxxx" : String).data)
      ∧ ((("a\nb" : String).data.length : Int) ≤ 5 ∨
          ((splitNl ("a\nb" : String).data).length = 1 ∧
            (5 : Int) < ("a\nb" : String).data.length)))
    ∧ SplitMessage "a\n\nb\nxxxxxxxxxx" 5 = ["a\nb", "xxxxxxxxxx"] := by
  have h := splitMessage_chunks "a\n\nb\nxxxxxxxxxx" 5
  have hm : ("a\nb" : String) ∈ SplitMessage "a\n\nb\nxxxxxxxxxx" 5 := by decide
  obtain ⟨h1, h2, h3, h4⟩ := h.1 "a\nb" hm
  exact ⟨⟨hm, h1, h2, h3, h4⟩, h.2⟩

/-- C10: for every limit, `SplitMessage` returns the empty list on the empty
string and on any string consisting only of whitespace (newlines included):
no chunk is produced for input with no non-blank content. -/
theorem splitMessage_blank_input (text : String) (limit : Int)
    (h : ∀ c ∈ text.data, goIsSpace c = true) :
    SplitMessage text limit = [] := by
  have htrim : goTrim text.data = [] := goTrim_eq_nil_of_all_space h
  rw [SplitMessage, splitMessageCore, htrim]
  rfl

/-- Witness for C10: a whitespace-and-newline string at limit 3. -/
theorem splitMessage_blank_input_witness :
    (∀ c ∈ (" \n\t " : String).data, goIsSpace c = true)
    ∧ SplitMessage " \n\t " 3 = [] :=
  ⟨by decide, splitMessage_blank_input " \n\t " 3 (by decide)⟩

/-- C6: each formatter yields exactly its header line for zero records, and
for N records the header followed by the N numbered entry lines, numbered
1 through N in input-list order; headers and entries are the clickable
twitch.tv links built by the corresponding header/entry functions. -/
theorem formatters_structure (username : String) (fs : List Follow)
    (ms : List Mod) (vs : List Vip) (ds : List Founders) :
    FormatFollows username [] = followsHeader username
    ∧ FormatMods username [] = modsHeader username
    ∧ FormatVips username [] = vipsHeader username
    ∧ FormatFounders username [] = foundersHeader username
    ∧ FormatFollows username fs = followsHeader username
        ++ strConcat (fs.enum.map fun p => followEntry (p.1 + 1) p.2)
    ∧ FormatMods username ms = modsHeader username
        ++ strConcat (ms.enum.map fun p => modEntry (p.1 + 1) p.2)
    ∧ FormatVips username vs = vipsHeader username
        ++ strConcat (vs.enum.map fun p => vipEntry (p.1 + 1) p.2)
    ∧ FormatFounders username ds = foundersHeader username
        ++ strConcat (ds.enum.map fun p => founderEntry (p.1 + 1) p.2) := by
  refine ⟨String.append_empty _, String.append_empty _, String.append_empty _,
    String.append_empty _, ?_, ?_, ?_, ?_⟩
  · rw [FormatFollows, formatEntries_eq_strConcat,
      show fs.enum = fs.enumFrom 0 from rfl, enumFrom_map_shift followEntry fs 0]
  · rw [FormatMods, formatEntries_eq_strConcat,
      show ms.enum = ms.enumFrom 0 from rfl, enumFrom_map_shift modEntry ms 0]
  · rw [FormatVips, formatEntries_eq_strConcat,
      show vs.enum = vs.enumFrom 0 from rfl, enumFrom_map_shift vipEntry vs 0]
  · rw [FormatFounders, formatEntries_eq_strConcat,
      show ds.enum = ds.enumFrom 0 from rfl, enumFrom_map_shift founderEntry ds 0]

/-- C7: `FormatFounders` on username "bob" and the single founder record with
display name "Bob", login "bob" and first month 2020-01-15 returns exactly
the expected reply string, trailing newline included. -/
theorem formatFounders_bob :
    FormatFounders "bob" [⟨"", "Bob", "bob", ⟨2020, 1, 15⟩, false, "", false⟩]
      = "<a href=\"https://twitch.tv/bob\">bob</a>'s list of channel founders:\n1. <a href=\"https://twitch.tv/bob\">Bob</a> (founded at 2020-01-15)\n" := by
  decide

/-- C4: for each of the four fetch operations, a 404 yields exactly
"user not found", a 400 the kind-specific no-entries message, any other
non-200 status an error carrying that status code, and a 200 whose body does
not decode yields the decode error (the total functions cannot panic). -/
theorem fetch_error_mapping (rf : HttpResponse Follow) (rm : HttpResponse Mod)
    (rv : HttpResponse Vip) (rd : HttpResponse Founders) :
    (rf.statusCode = 404 → FetchFollows rf = .error "user not found")
    ∧ (rf.statusCode = 400 →
        FetchFollows rf = .error "the user does not follow any channel")
    ∧ (rf.statusCode ≠ 200 → rf.statusCode ≠ 400 → rf.statusCode ≠ 404 →
        FetchFollows rf
          = .error ("unexpected status code: " ++ toString rf.statusCode))
    ∧ (∀ e, rf.statusCode = 200 → rf.decoded = .error e →
        FetchFollows rf = .error ("failed to decode response: " ++ e))
    ∧ (rm.statusCode = 404 → FetchMods rm = .error "user not found")
    ∧ (rm.statusCode = 400 →
        FetchMods rm = .error "the user does not have any moderators on their channel")
    ∧ (rm.statusCode ≠ 200 → rm.statusCode ≠ 400 → rm.statusCode ≠ 404 →
        FetchMods rm
          = .error ("unexpected status code: " ++ toString rm.statusCode))
    ∧ (∀ e, rm.statusCode = 200 → rm.decoded = .error e →
        FetchMods rm = .error ("failed to decode response: " ++ e))
    ∧ (rv.statusCode = 404 → FetchVips rv = .error "user not found")
    ∧ (rv.statusCode = 400 →
        FetchVips rv = .error "the user does not have any VIPs on their channel")
    ∧ (rv.statusCode ≠ 200 → rv.statusCode ≠ 400 → rv.statusCode ≠ 404 →
        FetchVips rv
          = .error ("unexpected status code: " ++ toString rv.statusCode))
    ∧ (∀ e, rv.statusCode = 200 → rv.decoded = .error e →
        FetchVips rv = .error ("failed to decode response: " ++ e))
    ∧ (rd.statusCode = 404 → FetchFounders rd = .error "user not found")
    ∧ (rd.statusCode = 400 →
        FetchFounders rd = .error "the user does not have any founders on their channel")
    ∧ (rd.statusCode ≠ 200 → rd.statusCode ≠ 400 → rd.statusCode ≠ 404 →
        FetchFounders rd
          = .error ("unexpected status code: " ++ toString rd.statusCode))
    ∧ (∀ e, rd.statusCode = 200 → rd.decoded = .error e →
        FetchFounders rd = .error ("failed to decode response: " ++ e)) :=
  ⟨fun h => by simp [FetchFollows, h],
   fun h => by simp [FetchFollows, h],
   fun h1 h2 h3 => by simp [FetchFollows, h1, h2, h3],
   fun e h1 h2 => by simp [FetchFollows, h1, h2],
   fun h => by simp [FetchMods, h],
   fun h => by simp [FetchMods, h],
   fun h1 h2 h3 => by simp [FetchMods, h1, h2, h3],
   fun e h1 h2 => by simp [FetchMods, h1, h2],
   fun h => by simp [FetchVips, h],
   fun h => by simp [FetchVips, h],
   fun h1 h2 h3 => by simp [FetchVips, h1, h2, h3],
   fun e h1 h2 => by simp [FetchVips, h1, h2],
   fun h => by simp [FetchFounders, h],
   fun h => by simp [FetchFounders, h],
   fun h1 h2 h3 => by simp [FetchFounders, h1, h2, h3],
   fun e h1 h2 => by simp [FetchFounders, h1, h2]⟩

/-- Witness for C4: one concrete response per error class, across the four
fetch operations. -/
theorem fetch_error_mapping_witness :
    FetchFollows ⟨404, .ok []⟩ = .error "user not found"
    ∧ FetchMods ⟨400, .ok []⟩
        = .error "the user does not have any moderators on their channel"
    ∧ FetchVips ⟨503, .ok []⟩ = .error ("unexpected status code: " ++ toString 503)
    ∧ FetchFounders ⟨200, .error "invalid JSON"⟩
        = .error ("failed to decode response: " ++ "invalid JSON") := by
  obtain ⟨f404, f400, fother, fdec, m404, m400, mother, mdec,
    v404, v400, vother, vdec, d404, d400, dother, ddec⟩ :=
    fetch_error_mapping ⟨404, .ok []⟩ ⟨400, .ok []⟩ ⟨503, .ok []⟩
      ⟨200, .error "invalid JSON"⟩
  exact ⟨f404 rfl, m400 rfl, vother (by decide) (by decide) (by decide),
    ddec "invalid JSON" rfl rfl⟩

/-- Concrete environment for C8: no `.env` file, token present in the process
environment. -/
def noFileEnv : OsEnv :=
  ⟨none, fun k => if k = "TELEGRAM_TOKEN" then "token123" else ""⟩

/-- C8 counterexample: the token is available in the process environment, yet
`Load` fails, because `Load` propagates `godotenv.Load()`'s error when the
`.env` file is missing — so loading does not succeed exactly when the token
is available. -/
theorem load_counterexample :
    noFileEnv.env "TELEGRAM_TOKEN" = "token123"
    ∧ Load noFileEnv = .error "open .env: no such file or directory" :=
  ⟨rfl, rfl⟩

/-- C8 (amended): `Load` fails with godotenv's error whenever the `.env` file
is missing (even if the token is set in the process environment); when the
file loads, `Load` succeeds with the token taken from the process environment
or else from the file, exactly when that token is non-empty, and fails with
"TELEGRAM_TOKEN is required" when it is empty. -/
theorem load_amended (e : OsEnv) :
    (e.dotenvFile = none →
      Load e = .error "open .env: no such file or directory")
    ∧ ∀ kvs, e.dotenvFile = some kvs →
        (mergedEnv e kvs "TELEGRAM_TOKEN" = "" →
          Load e = .error "TELEGRAM_TOKEN is required")
        ∧ (mergedEnv e kvs "TELEGRAM_TOKEN" ≠ "" →
          Load e = .ok ⟨mergedEnv e kvs "TELEGRAM_TOKEN"⟩) := by
  constructor
  · intro h
    rw [Load, godotenvLoad, h]
  · intro kvs hk
    have hL : Load e = match validate ⟨mergedEnv e kvs "TELEGRAM_TOKEN"⟩ with
        | some err => .error err
        | none => .ok ⟨mergedEnv e kvs "TELEGRAM_TOKEN"⟩ := by
      rw [Load, godotenvLoad, hk]
    constructor
    · intro hz
      rw [hL, validate, if_pos hz]
    · intro hnz
      rw [hL, validate, if_neg hnz]

/-- Concrete environment for the C8 witness: `.env` file present and holding
the token, process environment empty. -/
def fileEnv : OsEnv := ⟨some [("TELEGRAM_TOKEN", "abc")], fun _ => ""⟩

/-- Witness for the amended C8: with the token in the `.env` file, `Load`
succeeds and holds the token. -/
theorem load_amended_witness :
    fileEnv.dotenvFile = some [("TELEGRAM_TOKEN", "abc")]
    ∧ mergedEnv fileEnv [("TELEGRAM_TOKEN", "abc")] "TELEGRAM_TOKEN" ≠ ""
    ∧ Load fileEnv
        = .ok ⟨mergedEnv fileEnv [("TELEGRAM_TOKEN", "abc")] "TELEGRAM_TOKEN"⟩ := by
  have h := load_amended fileEnv
  exact ⟨rfl, by decide, (h.2 [("TELEGRAM_TOKEN", "abc")] rfl).2 (by decide)⟩

/-- A fetcher whose calls all succeed with empty record lists, for concrete
runs. -/
def emptyFetcher : BotFetcher :=
  ⟨fun _ => .ok [], fun _ => .ok [], fun _ => .ok [], fun _ => .ok []⟩

/-- C1: pressing button "vips" records the pending session for the chat; the
next plain-text message "alice" from that chat is treated as the username and
triggers exactly one vips fetch call with username "alice"; after the
successful reply the session for the chat is cleared, so a further plain-text
message is a fresh idle interaction that only redisplays the menu. -/
theorem vips_flow (f : BotFetcher) (s0 : BotState) (chatID : Int)
    (vips : List Vip) (t : String)
    (hfetch : f.fetchVips "alice" = .ok vips) :
    let r1 := handleUpdate f s0 (.callback chatID "vips")
    let r2 := handleUpdate f r1.1 (.message ⟨chatID, chatID, "alice", false, ""⟩)
    let r3 := handleUpdate f r2.1 (.message ⟨chatID, chatID, t, false, ""⟩)
    r1.1.userState chatID = some ⟨true, "vips"⟩
    ∧ r2.2.filter isFetchCall = [.fetchCall "vips" "alice"]
    ∧ r2.1.userState chatID = none
    ∧ r3 = (r2.1, [.sentKeyboard chatID]) := by
  intro r1 r2 r3
  have hr1 : r1 = (stateSet s0 chatID ⟨true, "vips"⟩,
      [.callbackAck "vips", .sentMessage chatID "Enter the channel name:"]) := rfl
  have h1 : r1.1.userState chatID = some ⟨true, "vips"⟩ := by
    rw [hr1]; exact stateSet_same s0 chatID ⟨true, "vips"⟩
  have hawait : isAwaitingUsername r1.1 chatID = true := by
    rw [isAwaitingUsername, h1]
  have hstate : (r1.1.userState chatID).getD ⟨false, ""⟩ = ⟨true, "vips"⟩ := by
    rw [h1]; rfl
  have hp : processRequest f "alice" "vips"
      = ((FormatVips "alice" vips, none), [.fetchCall "vips" "alice"]) := by
    rw [processRequest_vips, hfetch]
  have hr2 : r2 = (stateDelete r1.1 chatID,
      [Event.fetchCall "vips" "alice"]
        ++ (SplitMessage (FormatVips "alice" vips) telegramMessageLimit).map
            (Event.sentMessage chatID)
        ++ [Event.sentKeyboard chatID]) := by
    show handleUpdate f r1.1 (.message ⟨chatID, chatID, "alice", false, ""⟩) = _
    rw [handleUpdate_message_awaiting f r1.1 _ hawait, handleUserInput_eq]
    simp only [hstate, hp]
  refine ⟨h1, ?_, ?_, ?_⟩
  · rw [hr2]
    show (([Event.fetchCall "vips" "alice"]
        ++ (SplitMessage (FormatVips "alice" vips) telegramMessageLimit).map
            (Event.sentMessage chatID)
        ++ [Event.sentKeyboard chatID]).filter isFetchCall)
      = [Event.fetchCall "vips" "alice"]
    rw [List.filter_append, List.filter_append, filter_fetch_sentMessages]
    rfl
  · rw [hr2]
    exact stateDelete_same r1.1 chatID
  · have h2 : isAwaitingUsername r2.1 chatID = false := by
      rw [isAwaitingUsername, hr2]
      rw [show (stateDelete r1.1 chatID, [Event.fetchCall "vips" "alice"]
        ++ (SplitMessage (FormatVips "alice" vips) telegramMessageLimit).map
            (Event.sentMessage chatID)
        ++ [Event.sentKeyboard chatID]).1 = stateDelete r1.1 chatID from rfl]
      rw [stateDelete_same]
    exact handleUpdate_message_idle f r2.1 ⟨chatID, chatID, t, false, ""⟩ h2 rfl

/-- Witness for C1: a concrete run on chat 7 with the all-empty fetcher and a
second message "hello". -/
theorem vips_flow_witness :
    emptyFetcher.fetchVips "alice" = .ok []
    ∧ ((handleUpdate emptyFetcher emptyBotState (.callback 7 "vips")).1.userState 7
        = some ⟨true, "vips"⟩)
    ∧ ((handleUpdate emptyFetcher
          (handleUpdate emptyFetcher emptyBotState (.callback 7 "vips")).1
          (.message ⟨7, 7, "alice", false, ""⟩)).2.filter isFetchCall
        = [.fetchCall "vips" "alice"]) := by
  have h := vips_flow emptyFetcher emptyBotState 7 [] "hello" rfl
  obtain ⟨a, b, c, d⟩ := h
  exact ⟨rfl, a, b⟩

/-- C9: for a button that is none of "follows", "moders", "vips", "founders",
`processRequest` performs no fetch call and returns the empty string with the
error "unknown button: <button>"; the controller then sends the user the
"Failed to fetch data" message and redisplays the menu. -/
theorem unknown_button (f : BotFetcher) (s : BotState) (m : MessageInfo)
    (button username : String)
    (hb : button ∉ (["follows", "moders", "vips", "founders"] : List String))
    (hstate : s.userState m.fromID = some ⟨true, button⟩) :
    processRequest f username button
      = (("", some ("unknown button: " ++ button)), [])
    ∧ handleUpdate f s (.message m)
      = (stateDelete s m.chatID,
        [.sentMessage m.chatID
            ("Failed to fetch data: " ++ ("unknown button: " ++ button) ++ "."),
         .sentKeyboard m.chatID]) := by
  have hbs := hb
  simp only [List.mem_cons, List.not_mem_nil, or_false, not_or] at hbs
  obtain ⟨hb1, hb2, hb3, hb4⟩ := hbs
  have hpr : ∀ u, processRequest f u button
      = (("", some ("unknown button: " ++ button)), []) := by
    intro u
    rw [processRequest, if_neg hb1, if_neg hb2, if_neg hb3, if_neg hb4]
  have hawait : isAwaitingUsername s m.fromID = true := by
    rw [isAwaitingUsername, hstate]
  refine ⟨hpr username, ?_⟩
  rw [handleUpdate_message_awaiting f s m hawait, handleUserInput_eq]
  simp only [hstate, Option.getD_some, hpr]
  rfl

/-- State for the C9 witness: chat 5 awaiting a username for the unregistered
button "bogus". -/
def bogusState : BotState := stateSet emptyBotState 5 ⟨true, "bogus"⟩

/-- Witness for C9: a concrete unknown-button interaction on chat 5. -/
theorem unknown_button_witness :
    ("bogus" : String) ∉ (["follows", "moders", "vips", "founders"] : List String)
    ∧ bogusState.userState 5 = some ⟨true, "bogus"⟩
    ∧ processRequest emptyFetcher "alice" "bogus"
        = (("", some ("unknown button: " ++ "bogus")), [])
    ∧ handleUpdate emptyFetcher bogusState (.message ⟨5, 5, "alice", false, ""⟩)
        = (stateDelete bogusState 5,
          [.sentMessage 5
              ("Failed to fetch data: " ++ ("unknown button: " ++ "bogus") ++ "."),
           .sentKeyboard 5]) := by
  have h := unknown_button emptyFetcher bogusState ⟨5, 5, "alice", false, ""⟩
    "bogus" "alice" (by decide) rfl
  exact ⟨by decide, rfl, h.1, h.2⟩

/-- An update whose handling panics in the real code: a callback query whose
`Message` is nil makes `handleCallback` dereference `callback.Message.Chat.ID`
and panic.  Which updates panic is the `panics` oracle of `runUpdates`. -/
def panickingUpdate : Update := .callback 1 "vips"

/-- A second, well-formed update queued after the panicking one. -/
def followupUpdate : Update := .message ⟨2, 2, "hello", false, ""⟩

/-- C5 (defect evidence): with the panic-recovery boundary transcribed from
the source — the deferred `recover` passes the panic to `log.Fatalf`, which
exits the process — a panicking update terminates the whole run with no
events, leaving the subsequent update unprocessed, instead of abandoning only
the failing update and continuing. -/
theorem panic_terminates_process :
    runUpdates emptyFetcher (fun u => u == panickingUpdate) emptyBotState
      [panickingUpdate, followupUpdate]
      = .exitedByFatal [] [followupUpdate] := by
  decide

end TwitchKit
